import Mathlib

/-!
Shallow embedding of selected FutureSDR components:
* `PhaseComparator::work` (examples/direction-finding/src/phase_comparator.rs)
* the UDP bridge tasks of `uav_loopback.rs` (examples/multi-trx/src/bin)
* `Timeseries::work`, `TimeseriesHandle::process_updates` and
  `TimeseriesBuilder::build_detached` (src/blocks/gui/timeseries.rs)

Complex f32 samples are idealised as elements of `ℂ`, f64 values as `ℝ`.
The rustfft forward plan of size `n` applied to a buffer whose length is a
multiple of `n` performs one unnormalised forward DFT per `n`-sized chunk;
`dft` below is that unnormalised forward DFT.
-/

open scoped Real

/-- Unnormalised forward DFT bin `k` of the vector `v`, exactly the value
rustfft's forward plan stores at index `k` of the output chunk. -/
noncomputable def dftBin (v : List ℂ) (k : ℕ) : ℂ :=
  ((List.range v.length).map
    (fun j => v.getD j 0 *
      Complex.exp (-(2 * Real.pi * Complex.I * (j : ℂ) * (k : ℂ)) / (v.length : ℂ)))).sum

/-- Unnormalised forward DFT of `v` (rustfft forward plan on one chunk). -/
noncomputable def dft (v : List ℂ) : List ℂ :=
  (List.range v.length).map (fun k => dftBin v k)

theorem sum_range_getD (v : List ℂ) :
    ((List.range v.length).map (fun j => v.getD j 0)).sum = v.sum := by
  induction v with
  | nil => simp
  | cons x xs ih =>
    simp only [List.length_cons, List.range_succ_eq_map, List.map_cons, List.map_map,
      List.sum_cons, List.getD_cons_zero]
    have : ((List.range xs.length).map ((fun j => (x :: xs).getD j 0) ∘ Nat.succ)).sum
        = ((List.range xs.length).map (fun j => xs.getD j 0)).sum := by
      apply congrArg
      apply List.map_congr_left
      intro a _
      simp [List.getD_cons_succ]
    rw [this, ih]

/-- Bin 0 of the forward DFT is the plain sum of the chunk. -/
theorem dftBin_zero (v : List ℂ) : dftBin v 0 = v.sum := by
  unfold dftBin
  have h : ∀ j : ℕ, v.getD j 0 *
      Complex.exp (-(2 * Real.pi * Complex.I * (j : ℂ) * ((0 : ℕ) : ℂ)) / (v.length : ℂ))
      = v.getD j 0 := by
    intro j
    simp
  rw [List.map_congr_left (fun j _ => h j)]
  exact sum_range_getD v

/-- The first element of the DFT output chunk (`chunk[0]` in the source) for
a nonempty chunk. -/
theorem dft_headD (v : List ℂ) (h : v ≠ []) : (dft v).headD 0 = v.sum := by
  obtain ⟨x, xs, rfl⟩ := List.exists_cons_of_ne_nil h
  rw [← dftBin_zero]
  simp [dft, List.range_succ_eq_map]

/-- The first `n` chunks of length `F` of the list `l`, mirroring
`buf.chunks(fft_size)` on a buffer of length `n * F`. -/
def chunksOf (F : ℕ) : ℕ → List ℂ → List (List ℂ)
  | 0, _ => []
  | Nat.succ n, l => l.take F :: chunksOf F n (l.drop F)

theorem chunksOf_length (F n : ℕ) (l : List ℂ) : (chunksOf F n l).length = n := by
  induction n generalizing l with
  | zero => rfl
  | succ n ih => simp [chunksOf, ih]

namespace PhaseComparator

/-- The time-difference estimate produced for one pair of FFT chunks:
`T * ((chunk1[0].arg() - chunk2[0].arg()) / (2 * PI))` with
`T = 1000.0 / 868.25` fixed in the source (`diff_ns` in the work loop). -/
noncomputable def chunkOut (T : ℝ) (c1 c2 : List ℂ) : ℝ :=
  T * ((((dft c1).headD 0).arg - (((dft c2).headD 0).arg)) / (2 * Real.pi))

/-- The reference period constant `1000.0 / 868.25` hard-coded in the source. -/
noncomputable def refPeriodNs : ℝ := 1000 / 868.25

/-- Result of one `PhaseComparator::work` invocation: elements consumed from
each input, the produced output elements, and whether `Ok(())` was returned. -/
structure Run where
  consumed0 : ℕ
  consumed1 : ℕ
  output : List ℝ
  ok : Bool

/-- One invocation of `PhaseComparator::work` with FFT size `F`, input views
`in1`, `in2` and an output view with room for `olen` f64 elements.  Mirrors
the source: `ilen = min`, `num_chunks = min(output.len(), ilen / fft_size)`,
`m = num_chunks * fft_size`, early `Ok` return when `m == 0`, otherwise
FFT both inputs chunkwise, consume `m` from each input, emit one estimate
per chunk pair and produce `num_chunks`. -/
noncomputable def work (T : ℝ) (F : ℕ) (in1 in2 : List ℂ) (olen : ℕ) : Run :=
  let ilen := min in1.length in2.length
  let numChunks := min olen (ilen / F)
  let m := numChunks * F
  if m = 0 then ⟨0, 0, [], true⟩
  else
    ⟨m, m,
      ((chunksOf F numChunks in1).zip (chunksOf F numChunks in2)).map
        (fun p => chunkOut T p.1 p.2),
      true⟩

end PhaseComparator

namespace UavLoopback

/-- State of the UDP-server bridge tasks of `uav_loopback.rs`: the shared
socket's inbound loop, the two bounded frame channels (`wlan_rxed_frames`,
`zigbee_rxed_frames`) and the two outbound loops.  Addresses are `ℕ`,
frames are byte lists.  `wlanEndpoint` and `zigbeeEndpoint` are the values
carried by the oneshot channels `rx_endpoint` and `rx_endpoint2`; the
inbound loop sends the SAME sender address into both on its first datagram.
`wlanSent` and `zigbeeSent` record `send_to` calls as (bytes, address).
`wlanPanicked` records the WLAN outbound task dying on a slice panic. -/
structure State where
  wlanEndpoint : Option ℕ
  zigbeeEndpoint : Option ℕ
  wlanQueue : List (List ℕ)
  zigbeeQueue : List (List ℕ)
  wlanSent : List (List ℕ × ℕ)
  zigbeeSent : List (List ℕ × ℕ)
  wlanPanicked : Bool
  deriving DecidableEq, Repr

/-- Initial state: endpoints unknown, channels empty, nothing sent. -/
def init : State := ⟨none, none, [], [], [], [], false⟩

/-- Events of the bridge system: a datagram arriving on the shared socket,
a decoded frame entering one of the two channels, and one outbound loop
iteration of either bridge. -/
inductive Ev where
  | datagram (src : ℕ) (payload : List ℕ)
  | wlanFrame (f : List ℕ)
  | zigbeeFrame (f : List ℕ)
  | wlanDeliver
  | zigbeeDeliver
  deriving DecidableEq, Repr

/-- One step of the bridge system, mirroring `uav_loopback.rs` lines
326-385.  The first datagram sets both oneshot endpoints to its sender
(`tx_endpoint.send(e)` and `tx_endpoint2.send(e)`).  Frames append to
their channel.  The WLAN outbound loop runs only once its endpoint oneshot
has resolved; it sends `v[24..]` to the endpoint, panicking (task dead) on
a frame shorter than 24 bytes.  The Zigbee outbound loop sends the whole
frame. -/
def step (s : State) (e : Ev) : State :=
  match e with
  | .datagram src _ =>
    match s.wlanEndpoint with
    | none => { s with wlanEndpoint := some src, zigbeeEndpoint := some src }
    | some _ => s
  | .wlanFrame f => { s with wlanQueue := s.wlanQueue ++ [f] }
  | .zigbeeFrame f => { s with zigbeeQueue := s.zigbeeQueue ++ [f] }
  | .wlanDeliver =>
    if s.wlanPanicked then s
    else
      match s.wlanEndpoint, s.wlanQueue with
      | some a, f :: rest =>
        if 24 ≤ f.length
        then { s with wlanQueue := rest, wlanSent := s.wlanSent ++ [(f.drop 24, a)] }
        else { s with wlanPanicked := true }
      | _, _ => s
  | .zigbeeDeliver =>
    match s.zigbeeEndpoint, s.zigbeeQueue with
    | some a, f :: rest =>
      { s with zigbeeQueue := rest, zigbeeSent := s.zigbeeSent ++ [(f, a)] }
    | _, _ => s

/-- Run the bridge system from the initial state along a trace of events. -/
def run (es : List Ev) : State := es.foldl step init

end UavLoopback

namespace Timeseries

/-- A tokio mpsc channel of f64 buffers with a fixed capacity, seen from the
sender side: `try_send` appends when below capacity and fails (dropping the
value) otherwise. -/
structure Chan where
  cap : ℕ
  buf : List (List ℝ)

/-- The `Sender::try_send` of a bounded channel: enqueue when below
capacity, otherwise leave the channel unchanged (the value is dropped; the
source ignores the returned error with `let _ =`). -/
noncomputable def trySend (c : Chan) (v : List ℝ) : Chan :=
  if c.buf.length < c.cap then ⟨c.cap, c.buf ++ [v]⟩ else c

/-- Result of one `Timeseries::work` invocation: the channels after the
try-sends, the consumed count declared for each input, and whether
`Ok(())` was returned. -/
structure Run where
  chans : List Chan
  consumed : List ℕ
  ok : Bool

/-- One invocation of `Timeseries::work`: for each sender `i`, read the
whole available input view `i`, `try_send` a copy (result ignored), and
consume the full view length; it always returns `Ok(())`.  By construction
(`Timeseries::new`) the block has exactly one input port per sender. -/
noncomputable def work (chans : List Chan) (inputs : List (List ℝ)) : Run :=
  ⟨(chans.zip inputs).map (fun p => trySend p.1 p.2),
   (chans.zip inputs).map (fun p => p.2.length),
   true⟩

/-- One line of a `TimeseriesHandle`: the buffers pending in its channel,
the currently plotted values, and the line's `max_values` bound. -/
structure Line where
  pending : List (List ℝ)
  values : List ℝ
  maxValues : ℕ

/-- `process_updates` for a single line: drain every pending buffer into
`values` (in order), then pop from the front while the length exceeds
`max_values`. -/
noncomputable def processLine (l : Line) : Line :=
  let vs := l.values ++ l.pending.flatten
  ⟨[], vs.drop (vs.length - l.maxValues), l.maxValues⟩

/-- `TimeseriesHandle::process_updates`: apply the per-line update to every
line of the handle. -/
noncomputable def processUpdates (lines : List Line) : List Line :=
  lines.map processLine

/-- The `max_values` bound given to every line by
`TimeseriesBuilder::build_detached`. -/
def buildDetachedMaxValues : ℕ := 10000

end Timeseries

theorem chunkOut_self (T : ℝ) (c : List ℂ) : PhaseComparator.chunkOut T c c = 0 := by
  unfold PhaseComparator.chunkOut
  rw [sub_self, zero_div, mul_zero]

theorem mem_zip_self {α : Type} (xs : List α) (p : α × α) (h : p ∈ xs.zip xs) :
    p.1 = p.2 := by
  induction xs with
  | nil => simp at h
  | cons x xs ih =>
    rw [List.zip_cons_cons] at h
    rcases List.mem_cons.mp h with h | h
    · rw [h]
    · exact ih h

theorem refPeriodNs_pos : 0 < PhaseComparator.refPeriodNs := by
  unfold PhaseComparator.refPeriodNs
  norm_num

theorem chunkOut_abs_lt (T : ℝ) (hT : 0 < T) (c1 c2 : List ℂ) :
    |PhaseComparator.chunkOut T c1 c2| < T := by
  unfold PhaseComparator.chunkOut
  set a := ((dft c1).headD 0).arg with ha
  set b := ((dft c2).headD 0).arg with hb
  have ha1 : -Real.pi < a := Complex.neg_pi_lt_arg _
  have ha2 : a ≤ Real.pi := Complex.arg_le_pi _
  have hb1 : -Real.pi < b := Complex.neg_pi_lt_arg _
  have hb2 : b ≤ Real.pi := Complex.arg_le_pi _
  have h2pi : (0 : ℝ) < 2 * Real.pi := Real.two_pi_pos
  have hab : |a - b| < 2 * Real.pi := abs_lt.mpr ⟨by linarith, by linarith⟩
  calc |T * ((a - b) / (2 * Real.pi))|
      = T * (|a - b| / (2 * Real.pi)) := by
        rw [abs_mul, abs_div, abs_of_pos hT, abs_of_pos h2pi]
    _ < T * 1 := by
        apply mul_lt_mul_of_pos_left _ hT
        rw [div_lt_one h2pi]
        exact hab
    _ = T := mul_one T

/-- C6: with fewer than `fft_size` samples available on either input,
`PhaseComparator::work` consumes nothing, produces nothing and returns
`Ok(())`. -/
theorem phase_comparator_insufficient_input_noop (T : ℝ) (F : ℕ) (in1 in2 : List ℂ)
    (olen : ℕ) (h : in1.length < F ∨ in2.length < F) :
    PhaseComparator.work T F in1 in2 olen = ⟨0, 0, [], true⟩ := by
  unfold PhaseComparator.work
  have hlt : min in1.length in2.length < F := by
    rcases h with h | h
    · exact lt_of_le_of_lt (min_le_left _ _) h
    · exact lt_of_le_of_lt (min_le_right _ _) h
  have hz : min in1.length in2.length / F = 0 := Nat.div_eq_of_lt hlt
  simp [hz]

/-- Witness for C6 at FFT size 2 with a single sample on each input. -/
theorem phase_comparator_insufficient_input_noop_witness :
    (([(1 : ℂ)] : List ℂ).length < 2 ∨ ([(1 : ℂ)] : List ℂ).length < 2) ∧
    PhaseComparator.work PhaseComparator.refPeriodNs 2 [(1 : ℂ)] [(1 : ℂ)] 5
      = ⟨0, 0, [], true⟩ :=
  ⟨Or.inl (by simp),
   phase_comparator_insufficient_input_noop _ 2 [(1 : ℂ)] [(1 : ℂ)] 5 (Or.inl (by simp))⟩

/-- C10: after `TimeseriesHandle::process_updates`, every line's values
queue has length at most its `max_values` bound; `build_detached` sets that
bound to 10000. -/
theorem timeseries_process_updates_bounded (lines : List Timeseries.Line)
    (l : Timeseries.Line) (h : l ∈ Timeseries.processUpdates lines) :
    l.values.length ≤ l.maxValues ∧ Timeseries.buildDetachedMaxValues = 10000 := by
  refine ⟨?_, rfl⟩
  rcases List.mem_map.mp h with ⟨x, _, rfl⟩
  simp only [Timeseries.processLine, List.length_drop]
  omega

/-- Witness for C10 on a line holding three values with bound one. -/
theorem timeseries_process_updates_bounded_witness :
    Timeseries.processLine ⟨[], [(1 : ℝ), 2, 3], 1⟩
      ∈ Timeseries.processUpdates [⟨[], [(1 : ℝ), 2, 3], 1⟩] ∧
    ((Timeseries.processLine ⟨[], [(1 : ℝ), 2, 3], 1⟩).values.length
      ≤ (Timeseries.processLine ⟨[], [(1 : ℝ), 2, 3], 1⟩).maxValues ∧
     Timeseries.buildDetachedMaxValues = 10000) :=
  ⟨by simp [Timeseries.processUpdates],
   timeseries_process_updates_bounded [⟨[], [(1 : ℝ), 2, 3], 1⟩] _
     (by simp [Timeseries.processUpdates])⟩

/-- C9: `Timeseries::work` declares the full available view length as
consumed on every input, regardless of whether the `try_send` into the GUI
channel succeeds, and always returns `Ok(())`; a full channel drops the
buffer silently. -/
theorem timeseries_work_consumes_all (chans : List Timeseries.Chan)
    (inputs : List (List ℝ)) (h : chans.length = inputs.length) :
    (Timeseries.work chans inputs).consumed = inputs.map List.length ∧
    (Timeseries.work chans inputs).ok = true ∧
    ∀ (c : Timeseries.Chan) (v : List ℝ), c.cap ≤ c.buf.length →
      Timeseries.trySend c v = c := by
  refine ⟨?_, rfl, ?_⟩
  · unfold Timeseries.work
    have : ((chans.zip inputs).map (fun p => p.2.length))
        = ((chans.zip inputs).map Prod.snd).map List.length := by
      rw [List.map_map]
      rfl
    rw [this, List.map_snd_zip _ _ (le_of_eq h.symm)]
  · intro c v hc
    unfold Timeseries.trySend
    rw [if_neg (Nat.not_lt.mpr hc)]

/-- Witness for C9 with one input of three samples and a channel already at
capacity zero. -/
theorem timeseries_work_consumes_all_witness :
    ([⟨0, []⟩] : List Timeseries.Chan).length = ([[(1 : ℝ), 2, 3]] : List (List ℝ)).length ∧
    (Timeseries.work [⟨0, []⟩] [[(1 : ℝ), 2, 3]]).consumed
      = ([[(1 : ℝ), 2, 3]] : List (List ℝ)).map List.length :=
  ⟨rfl, (timeseries_work_consumes_all [⟨0, []⟩] [[(1 : ℝ), 2, 3]] rfl).1⟩

theorem timeseries_consumed_le (chans : List Timeseries.Chan)
    (inputs : List (List ℝ)) (i : ℕ) :
    (Timeseries.work chans inputs).consumed.getD i 0 ≤ (inputs.getD i []).length := by
  unfold Timeseries.work
  induction chans generalizing inputs i with
  | nil => simp
  | cons c cs ih =>
    cases inputs with
    | nil => simp
    | cons v vs =>
      cases i with
      | zero => simp
      | succ n =>
        simpa using ih vs n

/-- C5: both stages respect the stream port contract: the phase comparator
declares consumed counts at most each input view length and a produced
count at most the output view length, and the timeseries block declares
for each input exactly its view length (hence at most it). -/
theorem stream_port_contract_bounds :
    (∀ (T : ℝ) (F : ℕ) (in1 in2 : List ℂ) (olen : ℕ),
      (PhaseComparator.work T F in1 in2 olen).consumed0 ≤ in1.length ∧
      (PhaseComparator.work T F in1 in2 olen).consumed1 ≤ in2.length ∧
      (PhaseComparator.work T F in1 in2 olen).output.length ≤ olen) ∧
    (∀ (chans : List Timeseries.Chan) (inputs : List (List ℝ)) (i : ℕ),
      (Timeseries.work chans inputs).consumed.getD i 0 ≤ (inputs.getD i []).length) := by
  refine ⟨?_, timeseries_consumed_le⟩
  intro T F in1 in2 olen
  unfold PhaseComparator.work
  set ilen := min in1.length in2.length with hilen
  set nc := min olen (ilen / F) with hnc
  have hm : nc * F ≤ ilen := by
    calc nc * F ≤ ilen / F * F := Nat.mul_le_mul_right F (min_le_right _ _)
      _ ≤ ilen := Nat.div_mul_le_self ilen F
  by_cases h : nc * F = 0
  · simp [h]
  · simp only [h, if_neg h, if_false]
    refine ⟨?_, ?_, ?_⟩
    · exact le_trans hm (le_trans (min_le_left _ _) (le_refl _))
    · exact le_trans hm (min_le_right _ _)
    · simp [List.length_zip, chunksOf_length]

/-- C1 (amended): `PhaseComparator::work` consumes
`m = fft_size * min(olen, min(i1, i2) / fft_size)` elements from each input
and produces `m / fft_size = min(olen, min(i1, i2) / fft_size)` output
elements, where `olen` counts output elements (not samples). -/
theorem phase_comparator_counts (T : ℝ) (F : ℕ) (in1 in2 : List ℂ) (olen : ℕ) :
    (PhaseComparator.work T F in1 in2 olen).consumed0
      = F * min olen (min in1.length in2.length / F) ∧
    (PhaseComparator.work T F in1 in2 olen).consumed1
      = F * min olen (min in1.length in2.length / F) ∧
    (PhaseComparator.work T F in1 in2 olen).output.length
      = min olen (min in1.length in2.length / F) := by
  unfold PhaseComparator.work
  set nc := min olen (min in1.length in2.length / F) with hnc
  by_cases h : nc * F = 0
  · have hz : nc = 0 := by
      rcases Nat.mul_eq_zero.mp h with h1 | h1
      · exact h1

      · rw [hnc, h1]
        simp
    simp [h, hz, Nat.mul_comm]
  · simp only [h, if_neg h, if_false]
    refine ⟨Nat.mul_comm nc F, Nat.mul_comm nc F, ?_⟩
    simp [List.length_zip, chunksOf_length]

/-- Counterexample for C1 as stated: with `fft_size = 4`, four samples on
each input and room for one output element, the claimed
`m = 4 * (min(4, 4, 1) / 4) = 0` predicts no consumption and no output, but
the code consumes 4 samples from each input and produces one estimate. -/
theorem phase_comparator_counts_cex :
    (PhaseComparator.work PhaseComparator.refPeriodNs 4
      [(1 : ℂ), 1, 1, 1] [(1 : ℂ), 1, 1, 1] 1).consumed0 = 4 ∧
    (PhaseComparator.work PhaseComparator.refPeriodNs 4
      [(1 : ℂ), 1, 1, 1] [(1 : ℂ), 1, 1, 1] 1).output.length = 1 ∧
    4 * (min (min ([(1 : ℂ), 1, 1, 1] : List ℂ).length
      ([(1 : ℂ), 1, 1, 1] : List ℂ).length) 1 / 4) = 0 := by
  refine ⟨?_, ?_, by simp⟩
  · unfold PhaseComparator.work
    norm_num
  · unfold PhaseComparator.work
    norm_num [List.length_zip, chunksOf_length]

/-- C7: when both input streams are element-for-element identical, every
estimate produced by `PhaseComparator::work` is exactly zero, for any
reference period. -/
theorem phase_comparator_identical_inputs_zero (T : ℝ) (F : ℕ) (l : List ℂ)
    (olen : ℕ) (x : ℝ) (hx : x ∈ (PhaseComparator.work T F l l olen).output) :
    x = 0 := by
  unfold PhaseComparator.work at hx
  by_cases h : (min olen (min l.length l.length / F)) * F = 0
  · rw [if_pos h] at hx
    simp at hx
  · rw [if_neg h] at hx
    simp only [List.mem_map] at hx
    obtain ⟨p, hp, rfl⟩ := hx
    rw [mem_zip_self _ _ hp]
    exact chunkOut_self T p.2

/-- Witness for C7: one chunk of the stream `[I]` against itself yields the
estimate 0. -/
theorem phase_comparator_identical_inputs_zero_witness :
    (0 : ℝ) ∈ (PhaseComparator.work PhaseComparator.refPeriodNs 1
      [Complex.I] [Complex.I] 2).output ∧
    (0 : ℝ) = 0 :=
  ⟨by simp [PhaseComparator.work, chunksOf, chunkOut_self],
   phase_comparator_identical_inputs_zero PhaseComparator.refPeriodNs 1 [Complex.I] 2 0
     (by simp [PhaseComparator.work, chunksOf, chunkOut_self])⟩

/-- Counterexample for C2 as stated: with `fft_size = 1`, inputs `[-1]` and
`[-i]`, the raw phase difference is `pi - (-(pi/2)) = 3*pi/2`, which lies
outside `(-pi, pi]` and is not wrapped by the code, so the produced estimate
is `3/4` of the reference period, exceeding the claimed bound of half the
reference period. -/
theorem phase_comparator_no_wrap_cex :
    PhaseComparator.refPeriodNs / 2
      < (PhaseComparator.work PhaseComparator.refPeriodNs 1
          [(-1 : ℂ)] [-Complex.I] 1).output.headD 0 := by
  have h1 : (PhaseComparator.work PhaseComparator.refPeriodNs 1
      [(-1 : ℂ)] [-Complex.I] 1).output
      = [PhaseComparator.chunkOut PhaseComparator.refPeriodNs [(-1 : ℂ)] [-Complex.I]] := by
    simp [PhaseComparator.work, chunksOf]
  have h2 : PhaseComparator.chunkOut PhaseComparator.refPeriodNs [(-1 : ℂ)] [-Complex.I]
      = PhaseComparator.refPeriodNs * (3 / 4) := by
    unfold PhaseComparator.chunkOut
    rw [dft_headD [(-1 : ℂ)] (by simp), dft_headD [-Complex.I] (by simp)]
    simp only [List.sum_cons, List.sum_nil, add_zero, Complex.arg_neg_one, Complex.arg_neg_I]
    have hpi : Real.pi ≠ 0 := Real.pi_ne_zero
    field_simp
    ring
  rw [h1]
  simp only [List.headD_cons, h2]
  unfold PhaseComparator.refPeriodNs
  norm_num

/-- C2 (amended): each produced phase difference is the raw difference of
two angles in `(-pi, pi]`, hence lies in `(-2*pi, 2*pi)` without wrapping,
and every produced estimate is strictly smaller in magnitude than the full
reference period. -/
theorem phase_comparator_output_bounded (F : ℕ) (in1 in2 : List ℂ) (olen : ℕ)
    (x : ℝ)
    (hx : x ∈ (PhaseComparator.work PhaseComparator.refPeriodNs F in1 in2 olen).output) :
    |x| < PhaseComparator.refPeriodNs := by
  unfold PhaseComparator.work at hx
  by_cases h : (min olen (min in1.length in2.length / F)) * F = 0
  · simp [h] at hx
  · simp only [h, if_neg h, if_false, List.mem_map] at hx
    obtain ⟨p, _, rfl⟩ := hx
    exact chunkOut_abs_lt _ refPeriodNs_pos p.1 p.2

/-- Witness for C2 (amended): the estimate 0 produced for the streams `[1]`
and `[1]` is smaller in magnitude than the reference period. -/
theorem phase_comparator_output_bounded_witness :
    (0 : ℝ) ∈ (PhaseComparator.work PhaseComparator.refPeriodNs 1
      [(1 : ℂ)] [(1 : ℂ)] 1).output ∧
    |(0 : ℝ)| < PhaseComparator.refPeriodNs :=
  ⟨by simp [PhaseComparator.work, chunksOf, chunkOut_self],
   phase_comparator_output_bounded 1 [(1 : ℂ)] [(1 : ℂ)] 1 0
     (by simp [PhaseComparator.work, chunksOf, chunkOut_self])⟩

/-- Counterexample for C3 as stated: a 30-byte frame queued on the WLAN
channel before any datagram has arrived is not dropped; after the first
datagram (from address 9) the outbound loop delivers its stripped payload
to the learned address. -/
theorem udp_bridge_pre_endpoint_frame_delivered_cex :
    (UavLoopback.run [.wlanFrame (List.replicate 30 7)]).wlanQueue
      = [List.replicate 30 7] ∧
    (UavLoopback.run [.wlanFrame (List.replicate 30 7), .datagram 9 [],
      .wlanDeliver]).wlanSent = [(List.replicate 6 7, 9)] := by
  decide

/-- C3 (amended): a frame queued for outbound delivery before the first
inbound datagram arrives is buffered in the bounded channel, not dropped:
nothing is sent and the frame stays queued while the endpoint is unknown,
and once the first datagram arrives the frame is delivered (stripped of its
24-byte header) to the learned address. -/
theorem udp_bridge_pre_endpoint_frame_buffered (f : List ℕ) (a : ℕ) (p : List ℕ)
    (h : 24 ≤ f.length) :
    (UavLoopback.run [.wlanFrame f]).wlanSent = [] ∧
    (UavLoopback.run [.wlanFrame f]).wlanQueue = [f] ∧
    (UavLoopback.run [.wlanFrame f, .wlanDeliver]).wlanSent = [] ∧
    (UavLoopback.run [.wlanFrame f, .datagram a p, .wlanDeliver]).wlanSent
      = [(f.drop 24, a)] := by
  refine ⟨rfl, rfl, rfl, ?_⟩
  simp [UavLoopback.run, UavLoopback.step, UavLoopback.init, h]

/-- Witness for C3 (amended) with a 24-byte frame and address 5. -/
theorem udp_bridge_pre_endpoint_frame_buffered_witness :
    24 ≤ (List.replicate 24 0 : List ℕ).length ∧
    (UavLoopback.run [.wlanFrame (List.replicate 24 0), .datagram 5 [],
      .wlanDeliver]).wlanSent = [((List.replicate 24 0 : List ℕ).drop 24, 5)] :=
  ⟨by decide,
   (udp_bridge_pre_endpoint_frame_buffered (List.replicate 24 0) 5 [] (by decide)).2.2.2⟩

/-- Counterexample for C4 as stated: a single datagram on the shared socket
sets the endpoint of BOTH the WLAN bridge and the Zigbee bridge to its
sender, so the Zigbee bridge's endpoint is not learned from a datagram of
its own. -/
theorem udp_bridge_shared_endpoint_cex :
    (UavLoopback.run [.datagram 7 []]).wlanEndpoint = some 7 ∧
    (UavLoopback.run [.datagram 7 []]).zigbeeEndpoint = some 7 := by
  decide

theorem uav_step_preserves_endpoint_eq (s : UavLoopback.State) (e : UavLoopback.Ev)
    (h : s.wlanEndpoint = s.zigbeeEndpoint) :
    (UavLoopback.step s e).wlanEndpoint = (UavLoopback.step s e).zigbeeEndpoint := by
  cases e with
  | datagram src p =>
    unfold UavLoopback.step
    cases hw : s.wlanEndpoint <;> simp [h]
  | wlanFrame f => simpa [UavLoopback.step] using h
  | zigbeeFrame f => simpa [UavLoopback.step] using h
  | wlanDeliver =>
    unfold UavLoopback.step
    by_cases hp : s.wlanPanicked
    · simpa [hp] using h
    · simp only [hp, Bool.false_eq_true, if_false]
      cases hw : s.wlanEndpoint with
      | none => simpa using h
      | some a =>
        cases hq : s.wlanQueue with
        | nil => simpa using h
        | cons f rest => split <;> simp_all <;> split <;> rfl
  | zigbeeDeliver =>
    unfold UavLoopback.step
    cases hz : s.zigbeeEndpoint with
    | none => simpa using h
    | some a =>
      cases hq : s.zigbeeQueue with
      | nil => simpa using h
      | cons f rest => simp_all

/-- C4 (amended): the two bridges share endpoint state: after any trace of
bridge events, the WLAN bridge's endpoint and the Zigbee bridge's endpoint
are equal, both being set together by the first datagram on the single
shared socket. -/
theorem udp_bridge_endpoints_always_equal (es : List UavLoopback.Ev) :
    (UavLoopback.run es).wlanEndpoint = (UavLoopback.run es).zigbeeEndpoint := by
  suffices h : ∀ s : UavLoopback.State, s.wlanEndpoint = s.zigbeeEndpoint →
      (es.foldl UavLoopback.step s).wlanEndpoint
        = (es.foldl UavLoopback.step s).zigbeeEndpoint by
    exact h UavLoopback.init rfl
  induction es with
  | nil => intro s hs; exact hs
  | cons e es ih =>
    intro s hs
    exact ih _ (uav_step_preserves_endpoint_eq s e hs)

/-- C8: with the endpoint known and a frame at the head of the WLAN queue,
the outbound loop sends the frame minus its 24-byte header (the sent length
is the frame length minus 24) when the frame has at least 24 bytes, and
panics — sending nothing and terminating the task, which thereafter does
nothing — when the frame is shorter than 24 bytes. -/
theorem wlan_outbound_strip_header (s : UavLoopback.State) (a : ℕ) (f : List ℕ)
    (rest : List (List ℕ)) (hp : s.wlanPanicked = false)
    (he : s.wlanEndpoint = some a) (hq : s.wlanQueue = f :: rest) :
    (24 ≤ f.length →
      UavLoopback.step s .wlanDeliver
        = { s with wlanQueue := rest, wlanSent := s.wlanSent ++ [(f.drop 24, a)] } ∧
      (f.drop 24).length = f.length - 24) ∧
    (f.length < 24 →
      UavLoopback.step s .wlanDeliver = { s with wlanPanicked := true } ∧
      (UavLoopback.step s .wlanDeliver).wlanSent = s.wlanSent) ∧
    (∀ t : UavLoopback.State, t.wlanPanicked = true →
      UavLoopback.step t .wlanDeliver = t) := by
  refine ⟨?_, ?_, ?_⟩
  · intro hf
    constructor
    · simp [UavLoopback.step, hp, he, hq, hf]
    · simp
  · intro hf
    have hf2 : ¬ 24 ≤ f.length := Nat.not_le.mpr hf
    constructor
    · simp [UavLoopback.step, hp, he, hq, hf2]
    · simp [UavLoopback.step, hp, he, hq, hf2]
  · intro t ht
    simp [UavLoopback.step, ht]

/-- Witness for C8: a bridge state with endpoint 7 and an empty blob at the
head of the queue; delivery panics the task. -/
theorem wlan_outbound_strip_header_witness :
    UavLoopback.step ⟨some 7, some 7, [[]], [], [], [], false⟩ .wlanDeliver
      = ⟨some 7, some 7, [[]], [], [], [], true⟩ :=
  ((wlan_outbound_strip_header ⟨some 7, some 7, [[]], [], [], [], false⟩ 7 [] []
    rfl rfl rfl).2.1 (by decide)).1
